import Mathlib

/-!
# Verification of the Laboratorio-paralela vector-sum programs

Shallow embedding of the two C programs of the repository:

* `src/main-lab/modified_vector_add.c` — the serial vector addition
  (`main`, `Allocate_vectors`, `Generate_random_vector`, `Vector_sum`);
* `src/main-lab/mpi_vector_sum.c` — the MPI block-distributed vector
  addition (`main`, `Read_n`, `Read_vector`, `Check_for_error`,
  `Allocate_vectors`, `Print_vector`, `Parallel_vector_sum`).

C arrays of `double` are modelled as total functions `Nat → D` (the cell at
index `i` is the value of the function at `i`; cells the program never
writes keep their initial, arbitrary value, which models `malloc`'s
uninitialised memory).  The element type `D` is kept abstract wherever the
program performs only the single addition `x[i] + y[i]`, because those
claims do not depend on any property of IEEE-754 arithmetic; where a claim
does use an algebraic fact of the arithmetic (commutativity, the additive
identity, the value `(r % 1000) / 10.0`), the `double` values produced and
consumed by these programs are modelled exactly over `ℚ`: IEEE-754 binary64
addition is commutative on values, has `+0.0` as a right identity (under
the `==` comparison the spec uses), and the division by `10.0` is the
single rounding the spec's wording "as represented by that division"
refers to.

In-place mutation of a buffer is modelled by explicit state passing: a
loop that writes `z[i]` becomes a recursion producing the final contents
of `z`, and a C function that receives buffers and writes one of them
returns the tuple of all the buffers it received, with the written one
replaced by its final contents.
-/

/-- One store to a modelled C array: `writeAt z i v` is the array `z` after
the assignment `z[i] = v`. -/
def writeAt {D : Type} (z : Nat → D) (i : Nat) (v : D) : Nat → D :=
  fun j => if j = i then v else z j

/-- The loop `for (i = 0; i < n; i++) z[i] = x[i] + y[i];` shared verbatim
by `Vector_sum` (modified_vector_add.c, lines 66-69) and
`Parallel_vector_sum` (mpi_vector_sum.c, lines 170-179): `sumLoop x y z n`
is the contents of `z` after `n` iterations. -/
def sumLoop {D : Type} [Add D] (x y z : Nat → D) : Nat → Nat → D
  | 0 => z
  | i + 1 => writeAt (sumLoop x y z i) i (x i + y i)

/-- `Vector_sum(x, y, z, n)` of modified_vector_add.c (lines 66-69).  The C
function receives the three buffers and writes only `z`; the embedding
returns the final contents of all three. -/
def Vector_sum {D : Type} [Add D] (x y z : Nat → D) (n : Nat) :
    (Nat → D) × (Nat → D) × (Nat → D) :=
  (x, y, sumLoop x y z n)

/-- `Parallel_vector_sum(local_x, local_y, local_z, local_n)` of
mpi_vector_sum.c (lines 170-179): the same element-wise loop, run by each
worker on its `local_n`-element block. -/
def Parallel_vector_sum {D : Type} [Add D]
    (local_x local_y local_z : Nat → D) (local_n : Nat) :
    (Nat → D) × (Nat → D) × (Nat → D) :=
  (local_x, local_y, sumLoop local_x local_y local_z local_n)

theorem sumLoop_lt {D : Type} [Add D] (x y z : Nat → D) (n : Nat) :
    ∀ i, i < n → sumLoop x y z n i = x i + y i := by
  induction n with
  | zero => intro i hi; exact absurd hi (Nat.not_lt_zero i)
  | succ m ih =>
      intro i hi
      by_cases h : i = m
      · subst h
        simp [sumLoop, writeAt]
      · have hlt : i < m := Nat.lt_of_le_of_ne (Nat.le_of_lt_succ hi) h
        simpa [sumLoop, writeAt, h] using ih i hlt

theorem sumLoop_ge {D : Type} [Add D] (x y z : Nat → D) (n : Nat) :
    ∀ i, n ≤ i → sumLoop x y z n i = z i := by
  induction n with
  | zero => intro i _; rfl
  | succ m ih =>
      intro i hi
      have hne : i ≠ m := Nat.ne_of_gt (Nat.lt_of_lt_of_le (Nat.lt_succ_self m) hi)
      have : m ≤ i := Nat.le_of_succ_le hi
      simpa [sumLoop, writeAt, hne] using ih i this

/-- **C1.** For every pair of equal-length sequences `x` and `y` of length
`n`, the local summation operation — both the serial `Vector_sum` and the
distributed `Parallel_vector_sum` — produces an output `z` with
`z[i] = x[i] + y[i]` (the single native addition, so the equality is exact
for any element arithmetic) for every index `i < n`, and leaves the input
buffers `x` and `y` unchanged. -/
theorem vector_sum_correct {D : Type} [Add D] (x y z : Nat → D) (n : Nat) :
    ((Vector_sum x y z n).1 = x ∧ (Vector_sum x y z n).2.1 = y ∧
      ∀ i, i < n → (Vector_sum x y z n).2.2 i = x i + y i) ∧
    ((Parallel_vector_sum x y z n).1 = x ∧ (Parallel_vector_sum x y z n).2.1 = y ∧
      ∀ i, i < n → (Parallel_vector_sum x y z n).2.2 i = x i + y i) := by
  refine ⟨⟨rfl, rfl, ?_⟩, ⟨rfl, rfl, ?_⟩⟩ <;>
    exact fun i hi => sumLoop_lt x y z n i hi

/-- Witness for C1: the concrete instance `n = 3`, `x = [1,2,3]`,
`y = [8,7,6]` over `ℚ` evaluated at index `1`. -/
theorem vector_sum_correct_witness :
    (Vector_sum (fun i => (i + 1 : ℚ)) (fun i => (8 - i : ℚ)) (fun _ => (0 : ℚ)) 3).2.2 1
      = (1 + 1 : ℚ) + (8 - 1 : ℚ) := by
  have h := (vector_sum_correct (D := ℚ)
      (fun i => (i + 1 : ℚ)) (fun i => (8 - i : ℚ)) (fun _ => (0 : ℚ)) 3).1.2.2 1 (by decide)
  simpa using h

/-! ## Block distribution (`Read_vector`) and collection (`Print_vector`) -/

/-- The handoff performed by `MPI_Scatter` inside `Read_vector`
(mpi_vector_sum.c, lines 76-90): the origin holds the full array `a`, and
worker `k` receives the `k`-th contiguous `local_n`-element block, i.e.
`local_a[j] = a[k*local_n + j]` for `j < local_n`. -/
def scatterBlock {D : Type} (a : Nat → D) (local_n k : Nat) : Nat → D :=
  fun j => a (k * local_n + j)

/-- The reassembly performed by `MPI_Gather` inside `Print_vector`
(mpi_vector_sum.c, lines 135-166): worker `k`'s block occupies positions
`[k*local_n, (k+1)*local_n)` of the full array `b`, so the cell at index
`i` comes from worker `i / local_n`, position `i % local_n`. -/
def gatherArr {D : Type} (blocks : Nat → Nat → D) (local_n : Nat) : Nat → D :=
  fun i => blocks (i / local_n) (i % local_n)

/-- The data path of the distributed `main` (mpi_vector_sum.c, lines
43-69): scatter the blocks of `x` and `y`, each worker `k` runs
`Parallel_vector_sum` on its blocks (with `zinit k` the worker's
uninitialised `local_z` buffer), and the origin gathers the result blocks
in rank order. -/
def distributedVectorSum {D : Type} [Add D] (x y : Nat → D)
    (zinit : Nat → Nat → D) (local_n : Nat) : Nat → D :=
  gatherArr
    (fun k =>
      (Parallel_vector_sum (scatterBlock x local_n k) (scatterBlock y local_n k)
        (zinit k) local_n).2.2)
    local_n

/-- **C2.** For every vector order `n = p * local_n` and every pair of
full-length input vectors `x`, `y`, the distributed pipeline (scatter the
`k`-th contiguous block to worker `k`, each worker runs
`Parallel_vector_sum` on its `local_n`-element blocks, gather in rank
order) produces exactly the same output vector as the serial `Vector_sum`
applied to the full vectors — whatever the initial contents `zinit` and
`z` of the local and serial output buffers. -/
theorem distributed_eq_serial {D : Type} [Add D] (x y : Nat → D)
    (zinit : Nat → Nat → D) (z : Nat → D) (p local_n n : Nat)
    (hn : n = p * local_n) :
    ∀ i, i < n → distributedVectorSum x y zinit local_n i = (Vector_sum x y z n).2.2 i := by
  intro i hi
  have hpos : 0 < local_n := by
    rcases Nat.eq_zero_or_pos local_n with h0 | h0
    · subst h0; simp [Nat.mul_zero] at hn; omega
    · exact h0
  have hmod : i % local_n < local_n := Nat.mod_lt i hpos
  have hsplit : local_n * (i / local_n) + i % local_n = i := Nat.div_add_mod i local_n
  have hidx : i / local_n * local_n + i % local_n = i := by
    rw [Nat.mul_comm]; exact hsplit
  have hleft :
      distributedVectorSum x y zinit local_n i
        = x (i / local_n * local_n + i % local_n) + y (i / local_n * local_n + i % local_n) := by
    unfold distributedVectorSum gatherArr Parallel_vector_sum
    exact sumLoop_lt _ _ _ local_n (i % local_n) hmod
  rw [hleft, hidx]
  exact (sumLoop_lt x y z n i hi).symm

/-- Witness for C2: `n = 8`, `p = 4`, `local_n = 2`, `x = [1,…,8]`,
`y = [8,…,1]`, checked at index `5`. -/
theorem distributed_eq_serial_witness :
    distributedVectorSum (fun i => (i + 1 : ℚ)) (fun i => (8 - i : ℚ))
        (fun _ _ => (0 : ℚ)) 2 5
      = (Vector_sum (fun i => (i + 1 : ℚ)) (fun i => (8 - i : ℚ)) (fun _ => (0 : ℚ)) 8).2.2 5 :=
  distributed_eq_serial (fun i => (i + 1 : ℚ)) (fun i => (8 - i : ℚ))
    (fun _ _ => (0 : ℚ)) (fun _ => (0 : ℚ)) 4 2 8 (by decide) 5 (by decide)

/-- **C5.** For every `n = p * local_n`: (a) the blocks
`[k*local_n, (k+1)*local_n)` for `k < p` partition `[0, n)` — every index
`i < n` lies in exactly one block; (b) at distribute time worker `k` is
handed exactly the `k`-th contiguous slice of the source array; (c) at
collect time worker `k`'s output block is placed at positions
`[k*local_n, (k+1)*local_n)` of the reassembled vector. -/
theorem block_partition {D : Type} (a : Nat → D) (blocks : Nat → Nat → D)
    (p local_n n : Nat) (hn : n = p * local_n) :
    (∀ i, i < n → ∃! k, k < p ∧ k * local_n ≤ i ∧ i < (k + 1) * local_n) ∧
    (∀ k j, scatterBlock a local_n k j = a (k * local_n + j)) ∧
    (∀ k, k < p → ∀ j, j < local_n →
      gatherArr blocks local_n (k * local_n + j) = blocks k j) := by
  refine ⟨?_, fun k j => rfl, ?_⟩
  · intro i hi
    have hpos : 0 < local_n := by
      rcases Nat.eq_zero_or_pos local_n with h0 | h0
      · subst h0; simp [Nat.mul_zero] at hn; omega
      · exact h0
    refine ⟨i / local_n, ⟨?_, ?_, ?_⟩, ?_⟩
    · exact (Nat.div_lt_iff_lt_mul hpos).mpr (by omega)
    · exact Nat.div_mul_le_self i local_n
    · exact (Nat.div_lt_iff_lt_mul hpos).mp (Nat.lt_succ_self (i / local_n))
    · intro k ⟨_, hlo, hhi⟩
      have h1 : k * local_n / local_n ≤ i / local_n := Nat.div_le_div_right hlo
      have h2 : i / local_n < (k + 1) * local_n / local_n := by
        by_contra hcon
        have : (k + 1) * local_n / local_n ≤ i / local_n := Nat.le_of_not_lt hcon
        have hk1 : (k + 1) * local_n / local_n = k + 1 := Nat.mul_div_cancel _ hpos
        rw [hk1] at this
        have : (k + 1) * local_n ≤ i := by
          calc (k + 1) * local_n ≤ i / local_n * local_n :=
                Nat.mul_le_mul_right local_n this
            _ ≤ i := Nat.div_mul_le_self i local_n
        omega
      rw [Nat.mul_div_cancel _ hpos] at h1
      rw [Nat.mul_div_cancel _ hpos] at h2
      omega
  · intro k _ j hj
    have hdiv : (k * local_n + j) / local_n = k := by
      rw [Nat.add_comm, Nat.add_mul_div_right j k (by omega)]
      rw [Nat.div_eq_of_lt hj]
      omega
    have hmod : (k * local_n + j) % local_n = j := by
      rw [Nat.add_comm, Nat.add_mul_mod_self_right]
      exact Nat.mod_eq_of_lt hj
    unfold gatherArr
    rw [hdiv, hmod]

/-- Witness for C5: `n = 8`, `p = 4`, `local_n = 2`; index `5` lies in
exactly one block, the scatter slice and the gather placement are checked
at worker `2`, position `1`. -/
theorem block_partition_witness :
    (∃! k, k < 4 ∧ k * 2 ≤ 5 ∧ 5 < (k + 1) * 2) ∧
    scatterBlock (fun i => (i : ℚ)) 2 2 1 = ((2 * 2 + 1 : Nat) : ℚ) ∧
    gatherArr (fun k j => ((k * 2 + j : Nat) : ℚ)) 2 (2 * 2 + 1) = ((2 * 2 + 1 : Nat) : ℚ) := by
  have h := block_partition (fun i => (i : ℚ)) (fun k j => ((k * 2 + j : Nat) : ℚ)) 4 2 8 rfl
  exact ⟨h.1 5 (by decide), h.2.1 2 1, h.2.2 2 (by decide) 1 (by decide)⟩

/-- **C6.** The summation operation is commutative in its two vector
arguments: `sum(x, y) == sum(y, x)` element-wise, for both `Vector_sum`
and `Parallel_vector_sum`.  IEEE-754 binary64 addition is commutative on
values, so the `double` arithmetic is modelled exactly over `ℚ`. -/
theorem vector_sum_comm (x y z z' : Nat → ℚ) (n : Nat) :
    (∀ i, i < n → (Vector_sum x y z n).2.2 i = (Vector_sum y x z' n).2.2 i) ∧
    (∀ i, i < n →
      (Parallel_vector_sum x y z n).2.2 i = (Parallel_vector_sum y x z' n).2.2 i) := by
  constructor <;> intro i hi <;>
    simp only [Vector_sum, Parallel_vector_sum, sumLoop_lt x y z n i hi,
      sumLoop_lt y x z' n i hi, sumLoop_lt x y z n i hi,
      sumLoop_lt y x z' n i hi] <;>
    exact add_comm (x i) (y i)

/-- Witness for C6: `x = [1,2,3]`, `y = [8,7,6]`, checked at index `2`. -/
theorem vector_sum_comm_witness :
    (Vector_sum (fun i => (i + 1 : ℚ)) (fun i => (8 - i : ℚ)) (fun _ => (0 : ℚ)) 3).2.2 2
      = (Vector_sum (fun i => (8 - i : ℚ)) (fun i => (i + 1 : ℚ)) (fun _ => (0 : ℚ)) 3).2.2 2 :=
  (vector_sum_comm (fun i => (i + 1 : ℚ)) (fun i => (8 - i : ℚ))
    (fun _ => (0 : ℚ)) (fun _ => (0 : ℚ)) 3).1 2 (by decide)

/-- **C7.** The all-zero vector is a right identity of the summation:
`sum(x, zeros) == x` element-wise.  IEEE-754 binary64 addition of `+0.0`
returns the other operand (up to the `==` comparison the spec uses), so
the `double` arithmetic is modelled exactly over `ℚ`. -/
theorem vector_sum_zero_right (x z : Nat → ℚ) (n : Nat) :
    ∀ i, i < n → (Vector_sum x (fun _ => (0 : ℚ)) z n).2.2 i = x i := by
  intro i hi
  simp only [Vector_sum, sumLoop_lt x (fun _ => (0 : ℚ)) z n i hi]
  exact add_zero (x i)

/-- Witness for C7: `x = [1,2,3]` plus the zero vector, checked at index `1`. -/
theorem vector_sum_zero_right_witness :
    (Vector_sum (fun i => (i + 1 : ℚ)) (fun _ => (0 : ℚ)) (fun _ => (0 : ℚ)) 3).2.2 1
      = ((1 : Nat) + 1 : ℚ) := by
  have h := vector_sum_zero_right (fun i => (i + 1 : ℚ)) (fun _ => (0 : ℚ)) 3 1 (by decide)
  simpa using h

/-! ## Process termination, allocation failure, and the configure step -/

/-- The observable outcome of a process that terminates: its exit code and
the diagnostic lines it wrote to standard error. -/
structure ProcExit where
  code : Int
  stderrMsgs : List String
  deriving DecidableEq, Repr

/-- `Allocate_vectors` of modified_vector_add.c (lines 42-50): three
`malloc` calls (their success recorded by `okx`, `oky`, `okz`); if any
returned `NULL`, print one diagnostic to standard error and `exit(-1)`.
`none` means execution continues. -/
def serial_Allocate_vectors (okx oky okz : Bool) : Option ProcExit :=
  if !okx || !oky || !okz then some ⟨-1, ["Can't allocate vectors"]⟩ else none

/-- `main` of modified_vector_add.c (lines 22-40): allocate, generate, sum,
print, `return 0`.  Only the allocation step can terminate early. -/
def serial_main (okx oky okz : Bool) : ProcExit :=
  match serial_Allocate_vectors okx oky okz with
  | some e => e
  | none => ⟨0, []⟩

/-- **C8.** The serial program exits with status 0 when all three vector
allocations succeed; when any of the three fails it writes one diagnostic
to standard error and exits with the negative non-zero status `-1`. -/
theorem serial_exit_behavior (okx oky okz : Bool) :
    ((okx && oky && okz) = true → serial_main okx oky okz = ⟨0, []⟩) ∧
    ((okx && oky && okz) = false →
      (serial_main okx oky okz).code = -1 ∧ (serial_main okx oky okz).code < 0 ∧
      (serial_main okx oky okz).stderrMsgs = ["Can't allocate vectors"]) := by
  cases okx <;> cases oky <;> cases okz <;> simp [serial_main, serial_Allocate_vectors]

/-- Witness for C8: all allocations succeed, and the `y` allocation fails. -/
theorem serial_exit_behavior_witness :
    serial_main true true true = ⟨0, []⟩ ∧
    (serial_main true false true).code = -1 ∧
    (serial_main true false true).stderrMsgs = ["Can't allocate vectors"] :=
  ⟨(serial_exit_behavior true true true).1 (by decide),
   ((serial_exit_behavior true false true).2 (by decide)).1,
   ((serial_exit_behavior true false true).2 (by decide)).2.2⟩

/-- The `MPI_Allreduce(&local_ok, &ok, 1, MPI_INT, MPI_MIN, comm)` of
`Check_for_error` (mpi_vector_sum.c, line 100): the minimum of the `p`
local flags, delivered to every rank. -/
def allreduce_min (flags : Nat → Nat) (p : Nat) : Nat :=
  ((List.range p).map flags).foldr min 1

/-- `Check_for_error(local_ok, fname, message, comm)` of mpi_vector_sum.c
(lines 93-111), as seen by the worker of rank `rank`: all ranks combine
their flags with an all-reduce MIN; if the combined value is `0`, rank 0
alone prints the one diagnostic line and every rank exits with `-1`
(`some e`); otherwise every rank continues (`none`). -/
def Check_for_error (flags : Nat → Nat) (fname message : String)
    (p rank : Nat) : Option ProcExit :=
  if allreduce_min flags p = 0 then
    some ⟨-1, if rank = 0 then ["Proc 0 > In " ++ fname ++ ", " ++ message] else []⟩
  else none

/-- The local success flag computed by the MPI `Allocate_vectors`
(mpi_vector_sum.c, lines 121-128): `local_ok = 1`, set to `0` if any of
the three local `malloc` calls returned `NULL`. -/
def localOkOfAlloc (okx oky okz : Bool) : Nat :=
  if !okx || !oky || !okz then 0 else 1

/-- `Allocate_vectors` of mpi_vector_sum.c (lines 114-131), as seen by the
worker of rank `rank`: each rank `k`'s three `malloc` successes are
`okx k`, `oky k`, `okz k`; the flags are combined through
`Check_for_error`. -/
def mpi_Allocate_vectors (okx oky okz : Nat → Bool) (p rank : Nat) : Option ProcExit :=
  Check_for_error (fun k => localOkOfAlloc (okx k) (oky k) (okz k))
    "Allocate_vectors" "Can't allocate local arrays" p rank

/-- The distributed `main` (mpi_vector_sum.c, lines 54-57) up to the first
distribute (scatter) call: `Read_n` has no failure path, so the first
statement that can terminate the run is `Allocate_vectors`; `none` means
the rank proceeds to `Read_vector` (the scatter). -/
def mpi_main_before_scatter (okx oky okz : Nat → Bool) (p rank : Nat) : Option ProcExit :=
  mpi_Allocate_vectors okx oky okz p rank

/-- The total number of diagnostic lines written across the worker set. -/
def totalDiagnostics (outcome : Nat → Option ProcExit) (p : Nat) : Nat :=
  ((List.range p).map (fun r =>
    match outcome r with
    | some e => e.stderrMsgs.length
    | none => 0)).sum

theorem foldr_min_eq_zero (l : List Nat) (h : 0 ∈ l) : l.foldr min 1 = 0 := by
  induction l with
  | nil => cases h
  | cons a t ih =>
      rcases List.mem_cons.mp h with h1 | h2
      · rw [List.foldr_cons, ← h1]
        exact Nat.zero_min _
      · rw [List.foldr_cons, ih h2]
        exact Nat.min_zero a

theorem sum_indicator_head (f : Nat → Nat) (p : Nat) (h0 : f 0 = 1)
    (hrest : ∀ r, r ≠ 0 → f r = 0) (hp : 0 < p) :
    ((List.range p).map f).sum = 1 := by
  induction p with
  | zero => omega
  | succ m ih =>
      rw [List.range_succ, List.map_append, List.sum_append]
      rcases Nat.eq_zero_or_pos m with hm | hm
      · subst hm; simp [h0]
      · rw [ih hm]
        simp [hrest m (by omega)]

/-- **C4.** If any single worker's block-buffer allocation fails, then
after the all-reduce agreement over the local success flags every worker —
including those whose own allocations succeeded — terminates with the
non-zero status `-1` before reaching the distribute (scatter) step, and
exactly one diagnostic line is emitted across the whole worker set, by
rank 0 only. -/
theorem alloc_failure_aborts_all (okx oky okz : Nat → Bool) (p k : Nat)
    (hk : k < p) (hfail : localOkOfAlloc (okx k) (oky k) (okz k) = 0) :
    (∀ rank, ∃ e, mpi_main_before_scatter okx oky okz p rank = some e ∧
      e.code = -1 ∧ e.stderrMsgs.length = if rank = 0 then 1 else 0) ∧
    totalDiagnostics (fun r => mpi_main_before_scatter okx oky okz p r) p = 1 := by
  have hmin : allreduce_min (fun j => localOkOfAlloc (okx j) (oky j) (okz j)) p = 0 := by
    apply foldr_min_eq_zero
    exact List.mem_map.mpr ⟨k, List.mem_range.mpr hk, hfail⟩
  have houtcome : ∀ rank, mpi_main_before_scatter okx oky okz p rank =
      some ⟨-1, if rank = 0
        then ["Proc 0 > In " ++ "Allocate_vectors" ++ ", " ++ "Can't allocate local arrays"]
        else []⟩ := by
    intro rank
    unfold mpi_main_before_scatter mpi_Allocate_vectors Check_for_error
    rw [hmin]
    simp
  constructor
  · intro rank
    refine ⟨_, houtcome rank, rfl, ?_⟩
    by_cases h0 : rank = 0 <;> simp [h0]
  · unfold totalDiagnostics
    apply sum_indicator_head _ _ _ _ (Nat.lt_of_le_of_lt (Nat.zero_le k) hk)
    · simp only [houtcome 0]
      simp
    · intro r hr
      simp only [houtcome r]
      simp [hr]

/-- Witness for C4: worker 2 of a 4-worker set fails its `x` allocation;
worker 3's view and the worker-set-wide diagnostic count are checked. -/
theorem alloc_failure_aborts_all_witness :
    (∃ e, mpi_main_before_scatter (fun j => j != 2) (fun _ => true) (fun _ => true) 4 3 = some e ∧
      e.code = -1 ∧ e.stderrMsgs.length = 0) ∧
    totalDiagnostics
      (fun r => mpi_main_before_scatter (fun j => j != 2) (fun _ => true) (fun _ => true) 4 r) 4 = 1 := by
  have h := alloc_failure_aborts_all (fun j => j != 2) (fun _ => true) (fun _ => true) 4 2
    (by decide) (by decide)
  refine ⟨?_, h.2⟩
  have h3 := h.1 3
  simpa using h3

/-- `Read_n` of mpi_vector_sum.c (lines 71-74): every worker sets
`n = 100000` and `local_n = n / comm_sz` (C integer division).  The body
contains no divisibility check and no error path of any kind. -/
def Read_n (comm_sz : Nat) : Nat × Nat :=
  (100000, 100000 / comm_sz)

/-- The configure step of the distributed `main` (mpi_vector_sum.c, line
54): `Read_n` is called and execution falls through to `Allocate_vectors`
unconditionally; since `Read_n` has no failure path, the configure step
never aborts. -/
def mpi_configure (comm_sz : Nat) : Except ProcExit (Nat × Nat) :=
  Except.ok (Read_n comm_sz)

/-- **C3** (code bug): with `comm_sz = 3` — which does not divide the
hard-coded order `n = 100000` — the configure step does not detect any
error: `Read_n` returns `local_n = 33333`, the configure step succeeds,
and `3 * 33333 ≠ 100000`, so the run proceeds to the distribute step with
blocks that do not cover the vector.  This contradicts the program's own
header comment ("Errors detected are incorrect values of the vector order
(… not evenly divisible by comm_sz) …"). -/
theorem read_n_no_divisibility_check :
    mpi_configure 3 = Except.ok (100000, 33333) ∧
    Read_n 3 = (100000, 33333) ∧
    3 * 33333 ≠ 100000 ∧ 100000 % 3 ≠ 0 := by
  refine ⟨rfl, rfl, by decide, by decide⟩

/-! ## Random vector generation (`Generate_random_vector`) -/

/-- The loop of `Generate_random_vector` (modified_vector_add.c, lines
54-55): `a[i] = (rand() % 1000) / 10.0`, where `r i` is the `i`-th output
of the seeded `rand()` stream; `genLoop r a n` is the contents of `a`
after `n` iterations.  The `double` arithmetic on these small decimal
values is modelled over `ℚ`. -/
def genLoop (r : Nat → Nat) (a : Nat → ℚ) : Nat → Nat → ℚ
  | 0 => a
  | i + 1 => writeAt (genLoop r a i) i (((r i % 1000 : Nat) : ℚ) / 10)

/-- `Generate_random_vector(a, n)` of modified_vector_add.c (lines 52-56):
`srand(time(NULL))` reseeds the C generator with the observed wall-clock
value `t`, and the loop fills `a[0..n)` from the resulting `rand()`
stream.  `randFrom t` is the deterministic output stream that follows
`srand(t)` — the C standard makes `rand()` a deterministic function of the
last seed. -/
def Generate_random_vector (randFrom : Nat → Nat → Nat) (t : Nat)
    (a : Nat → ℚ) (n : Nat) : Nat → ℚ :=
  genLoop (randFrom t) a n

/-- The two generation calls of the serial `main` (modified_vector_add.c,
lines 28-29): `x` and `y` are filled by consecutive calls to
`Generate_random_vector`, each of which reseeds with the wall-clock value
it observes (`t1`, then `t2`); the buffers start with unrelated `malloc`
contents `x0`, `y0`. -/
def serial_generate_inputs (randFrom : Nat → Nat → Nat) (t1 t2 : Nat)
    (x0 y0 : Nat → ℚ) (n : Nat) : (Nat → ℚ) × (Nat → ℚ) :=
  (Generate_random_vector randFrom t1 x0 n, Generate_random_vector randFrom t2 y0 n)

theorem genLoop_lt (r : Nat → Nat) (a : Nat → ℚ) (n : Nat) :
    ∀ i, i < n → genLoop r a n i = ((r i % 1000 : Nat) : ℚ) / 10 := by
  induction n with
  | zero => intro i hi; exact absurd hi (Nat.not_lt_zero i)
  | succ m ih =>
      intro i hi
      by_cases h : i = m
      · subst h
        simp [genLoop, writeAt]
      · have hlt : i < m := Nat.lt_of_le_of_ne (Nat.le_of_lt_succ hi) h
        simpa [genLoop, writeAt, h] using ih i hlt

/-- **C9.** Every element produced by the serial random vector generation
equals `(r % 1000) / 10.0` for some generator output `r`; hence (with
`m = r % 1000 ≤ 999`) every generated element lies in the closed range
`[0, 99.9]` and is an exact multiple of `0.1` as represented by that
division. -/
theorem generated_values_range (randFrom : Nat → Nat → Nat) (t : Nat)
    (a : Nat → ℚ) (n : Nat) :
    ∀ i, i < n → ∃ m : Nat, m = randFrom t i % 1000 ∧ m ≤ 999 ∧
      Generate_random_vector randFrom t a n i = (m : ℚ) / 10 ∧
      (0 : ℚ) ≤ Generate_random_vector randFrom t a n i ∧
      Generate_random_vector randFrom t a n i ≤ 999 / 10 ∧
      Generate_random_vector randFrom t a n i = (m : ℚ) * (1 / 10) := by
  intro i hi
  have hval : Generate_random_vector randFrom t a n i
      = ((randFrom t i % 1000 : Nat) : ℚ) / 10 := genLoop_lt (randFrom t) a n i hi
  have hm : randFrom t i % 1000 ≤ 999 :=
    Nat.le_of_lt_succ (Nat.mod_lt (randFrom t i) (by omega))
  have hcast : ((randFrom t i % 1000 : Nat) : ℚ) ≤ 999 := by
    exact_mod_cast hm
  have hcast0 : (0 : ℚ) ≤ ((randFrom t i % 1000 : Nat) : ℚ) := Nat.cast_nonneg _
  refine ⟨randFrom t i % 1000, rfl, hm, hval, ?_, ?_, ?_⟩
  · rw [hval]; linarith
  · rw [hval]; linarith
  · rw [hval, mul_one_div]

/-- Witness for C9: the stream value at index `1` under a concrete seed
function and seed `7` with a three-element vector. -/
theorem generated_values_range_witness :
    ∃ m : Nat, m = (fun t i => t * 1103515245 + i : Nat → Nat → Nat) 7 1 % 1000 ∧ m ≤ 999 ∧
      Generate_random_vector (fun t i => t * 1103515245 + i) 7 (fun _ => (0 : ℚ)) 3 1 = (m : ℚ) / 10 ∧
      (0 : ℚ) ≤ Generate_random_vector (fun t i => t * 1103515245 + i) 7 (fun _ => (0 : ℚ)) 3 1 ∧
      Generate_random_vector (fun t i => t * 1103515245 + i) 7 (fun _ => (0 : ℚ)) 3 1 ≤ 999 / 10 ∧
      Generate_random_vector (fun t i => t * 1103515245 + i) 7 (fun _ => (0 : ℚ)) 3 1 = (m : ℚ) * (1 / 10) :=
  generated_values_range (fun t i => t * 1103515245 + i) 7 (fun _ => (0 : ℚ)) 3 1 (by decide)

/-- **C10.** The serial vector generation is a deterministic function of
the seed: two calls to `Generate_random_vector` that start from the same
seed produce element-wise identical vectors (whatever the prior contents
of the two buffers); and since the serial `main` reseeds with the observed
wall-clock value at the start of each of its two generation calls, the two
input vectors `x` and `y` agree on every generated element whenever both
calls observe the same time value. -/
theorem generate_deterministic (randFrom : Nat → Nat → Nat) (t1 t2 : Nat)
    (x0 y0 : Nat → ℚ) (n : Nat) :
    (∀ t, ∀ i, i < n →
      Generate_random_vector randFrom t x0 n i = Generate_random_vector randFrom t y0 n i) ∧
    (t1 = t2 → ∀ i, i < n →
      (serial_generate_inputs randFrom t1 t2 x0 y0 n).1 i
        = (serial_generate_inputs randFrom t1 t2 x0 y0 n).2 i) := by
  constructor
  · intro t i hi
    show genLoop (randFrom t) x0 n i = genLoop (randFrom t) y0 n i
    rw [genLoop_lt (randFrom t) x0 n i hi, genLoop_lt (randFrom t) y0 n i hi]
  · intro ht i hi
    subst ht
    show genLoop (randFrom t1) x0 n i = genLoop (randFrom t1) y0 n i
    rw [genLoop_lt (randFrom t1) x0 n i hi, genLoop_lt (randFrom t1) y0 n i hi]

/-- Witness for C10: both calls observe time `5`; the generated `x` and
`y` agree at index `2` although the buffers started with different
contents. -/
theorem generate_deterministic_witness :
    (serial_generate_inputs (fun t i => t + i) 5 5 (fun _ => (0 : ℚ)) (fun _ => (1 : ℚ)) 3).1 2
      = (serial_generate_inputs (fun t i => t + i) 5 5 (fun _ => (0 : ℚ)) (fun _ => (1 : ℚ)) 3).2 2 :=
  (generate_deterministic (fun t i => t + i) 5 5 (fun _ => (0 : ℚ)) (fun _ => (1 : ℚ)) 3).2 rfl 2
    (by decide)
